import Mathlib

/-!
Formal model of the LiveCryptoBoard feed-ingestion and subscription core,
translated from the Python sources: `app.py` (subscription broker, price
cache, fanout hub, viewer session registry), `basic_websocket.py`,
`binance_websocket.py`, `bybit_websocket.py`, `okx_websocket.py`,
`coinbase_websocket.py`, and `bitget_websocket.py` (exchange connectors).

Python dicts are modelled as insertion-ordered association lists with unique
keys (`dget` / `dset` / `ddel`); Python sets of symbols as lists with
set-style membership guards.  Prices are Python floats used only for storage
and (in)equality tests, so they are modelled as rationals.  A Python
`try ... except` around a network send has no effect on local state and never
raises to the caller; such sends are therefore modelled by total functions
that do not touch the state (fidelity of "never raises" = totality).
-/

set_option autoImplicit false

namespace LiveCryptoBoard

abbrev Symbol := String
abbrev Exchange := String
abbrev Sid := String
abbrev Price := Rat

/-! ### Python container primitives -/

section Dict

variable {α : Type} {β : Type} [DecidableEq α]

/-- Python dict lookup: `d.get(k)` (`some` iff `k in d`), first matching key. -/
def dget : List (α × β) → α → Option β
  | [], _ => none
  | (k, v) :: rest, k' => if k = k' then some v else dget rest k'

/-- Python dict assignment `d[k] = v`: replaces the value in place when the
key exists, appends a fresh entry otherwise (insertion order preserved). -/
def dset : List (α × β) → α → β → List (α × β)
  | [], k, v => [(k, v)]
  | (k', v') :: rest, k, v =>
      if k' = k then (k, v) :: rest else (k', v') :: dset rest k v

/-- Python `del d[k]`.  Every reachable dict has unique keys, so removing all
pairs with the key is the same operation. -/
def ddel : List (α × β) → α → List (α × β)
  | [], _ => []
  | (k', v') :: rest, k =>
      if k' = k then ddel rest k else (k', v') :: ddel rest k

end Dict

section SetOps

variable {α : Type} [DecidableEq α]

/-- Python `set.remove(a)` on a duplicate-free list (removes all copies,
which coincides with removing the one copy a set can hold). -/
def lrem : List α → α → List α
  | [], _ => []
  | x :: rest, a => if x = a then lrem rest a else x :: lrem rest a

end SetOps

/-- Python `str.upper()` (ASCII tickers), evaluated characterwise so the
kernel can reduce it. -/
def pyUpper (s : String) : String := ⟨s.data.map Char.toUpper⟩

/-- Python `str.lower()` (ASCII tickers), evaluated characterwise. -/
def pyLower (s : String) : String := ⟨s.data.map Char.toLower⟩

/-- Python `str.endswith(t)`. -/
def pyEndsWith (s t : String) : Bool := t.data.isSuffixOf s.data

/-- Python slicing `s[:-n]`. -/
def pyDropRight (s : String) (n : Nat) : String := ⟨s.data.take (s.data.length - n)⟩

/-! ### Exchange connectors -/

/-- A normalized price event handed to the connector's price callback. -/
structure PriceEvent where
  symbol : Symbol
  price : Price
deriving DecidableEq

/-- Local state of one exchange connector: the fields shared by all five
connector classes.  `connected` abstracts `self.ws` holding a live
connection. -/
structure ConnState where
  subscribed_symbols : List Symbol
  last_prices : List (Symbol × Price)
  is_running : Bool
  connected : Bool
deriving DecidableEq

/-- Fields of an exchange trade object that `_on_message` reads: a symbol
field and a price field.  `none` stands for a missing field, or for a price
`float()` cannot parse (the raised exception is caught and the message
dropped, which is the same `none` branch). -/
structure TradeObj where
  s : Option String
  p : Option Price
deriving DecidableEq

/-- Shape of a Binance inbound message after `json.loads`: a plain trade
object or a combined-stream wrapper `{'stream': ..., 'data': obj}`
(binance_websocket.py lines 152-157 unwrap the latter). -/
inductive BinanceMsg
  | plain (d : TradeObj)
  | combined (stream : String) (d : TradeObj)
deriving DecidableEq

/-- Symbol/price extraction of `BinanceWebSocket._on_message`
(binance_websocket.py lines 152-164): unwrap the combined stream, require
the `'s'` and `'p'` fields, require the `USDT` suffix and strip it. -/
def binanceDecode : BinanceMsg → Option (Symbol × Price)
  | .plain d | .combined _ d =>
    match d.s, d.p with
    | some sf, some pr =>
        if pyEndsWith sf "USDT" then some (pyDropRight sf 4, pr) else none
    | _, _ => none

/-- Shape of a Bybit message: a bare object or a `{'data': [obj, ...]}`
wrapper of which `_on_message` takes element 0 (bybit_websocket.py lines
31-35). -/
inductive BybitMsg
  | plain (d : TradeObj)
  | wrapped (d0 : TradeObj)
deriving DecidableEq

/-- Symbol/price extraction of `BybitWebSocket._on_message`
(bybit_websocket.py lines 31-41): same envelope fields and suffix handling
as Binance. -/
def bybitDecode : BybitMsg → Option (Symbol × Price)
  | .plain d | .wrapped d =>
    match d.s, d.p with
    | some sf, some pr =>
        if pyEndsWith sf "USDT" then some (pyDropRight sf 4, pr) else none
    | _, _ => none

/-- Fields of an OKX trade object that `_on_message` reads. -/
structure OkxObj where
  instId : Option String
  px : Option Price
deriving DecidableEq

/-- Shape of an OKX message: bare or `{'data': [obj, ...]}`-wrapped
(okx_websocket.py lines 31-35). -/
inductive OkxMsg
  | plain (d : OkxObj)
  | wrapped (d0 : OkxObj)
deriving DecidableEq

/-- Symbol/price extraction of `OkxWebSocket._on_message`
(okx_websocket.py lines 31-41): fields `instId`/`px`, instruments like
`BTC-USDT`, so five characters are stripped. -/
def okxDecode : OkxMsg → Option (Symbol × Price)
  | .plain d | .wrapped d =>
    match d.instId, d.px with
    | some sf, some pr =>
        if pyEndsWith sf "USDT" then some (pyDropRight sf 5, pr) else none
    | _, _ => none

/-- Body of `_on_message` shared by every connector, parameterized by the
exchange's envelope decoding: on a successful decode, the price-change gate
`if symbol not in self.last_prices or self.last_prices[symbol] != price:`
records the price and fires the callback; decode failures (missing fields,
wrong quote currency, caught exceptions) leave the state untouched and fire
nothing. -/
def connStep {Msg : Type} (decode : Msg → Option (Symbol × Price))
    (c : ConnState) (m : Msg) : ConnState × List PriceEvent :=
  match decode m with
  | none => (c, [])
  | some (sym, pr) =>
      if dget c.last_prices sym ≠ some pr then
        ({ c with last_prices := dset c.last_prices sym pr }, [⟨sym, pr⟩])
      else (c, [])

/-- A connector processing a sequence of inbound messages, collecting the
fired price events in order. -/
def connRun {Msg : Type} (decode : Msg → Option (Symbol × Price)) :
    ConnState → List Msg → ConnState × List PriceEvent
  | c, [] => (c, [])
  | c, m :: ms =>
      let r := connStep decode c m
      let r' := connRun decode r.1 ms
      (r'.1, r.2 ++ r'.2)

/-- Model of `BinanceWebSocket._on_close` (binance_websocket.py lines
181-183): the body only logs — the desired set and the last-price table are
untouched; `connected := false` records the connection loss itself (the
socket is gone once `run_forever` returns), not an effect of the body. -/
def binanceOnClose (c : ConnState) : ConnState := { c with connected := false }

/-- Model of `BinanceWebSocket._get_websocket_url` (binance_websocket.py
lines 82-96): `None` when no symbols are desired; otherwise a URL embedding
one `{symbol.lower()}usdt@trade` stream per desired symbol — the
single-stream `/ws/...` form for one symbol, the combined
`/stream?streams=...` form for several. -/
def binance_get_websocket_url (c : ConnState) : Option String :=
  if c.subscribed_symbols = [] then none
  else
    let streams := c.subscribed_symbols.map (fun s => pyLower s ++ "usdt@trade")
    if streams.length = 1 then
      some ("wss://stream.binance.com:9443/ws/" ++ streams.headD "")
    else
      some ("wss://stream.binance.com:9443/stream?streams="
        ++ String.intercalate "/" streams)

/-- Model of one reconnect iteration of `BinanceWebSocket._run`
(binance_websocket.py lines 103-128): with no desired symbols (or no URL)
the loop just waits; otherwise it opens a new connection whose URL embeds
one stream per currently desired symbol (lines 90-96, 112), so exactly the
desired symbols are subscribed upstream on the new connection.  The second
component lists the symbols the reconnect re-subscribed. -/
def binanceReconnect (c : ConnState) : ConnState × List Symbol :=
  match binance_get_websocket_url c with
  | none => (c, [])
  | some _ => ({ c with connected := true }, c.subscribed_symbols)

/-- Model of `BasicWebSocket.subscribe` (basic_websocket.py lines 50-64):
uppercase, set-add when absent, best-effort upstream send (try/except: no
local effect, never raises). -/
def basicSubscribe (c : ConnState) (symbol : Symbol) : ConnState :=
  let symbol := pyUpper symbol
  if symbol ∈ c.subscribed_symbols then c
  else { c with subscribed_symbols := c.subscribed_symbols ++ [symbol] }

/-- Model of `BasicWebSocket.unsubscribe` (basic_websocket.py lines 66-85):
when the uppercased symbol is registered, remove it from the desired set,
best-effort send the upstream unsubscribe (try/except: no local effect,
never raises), then delete the symbol's last-price record; otherwise do
nothing. -/
def basicUnsubscribe (c : ConnState) (symbol : Symbol) : ConnState :=
  let symbol := pyUpper symbol
  if symbol ∈ c.subscribed_symbols then
    { c with subscribed_symbols := lrem c.subscribed_symbols symbol,
             last_prices := ddel c.last_prices symbol }
  else c

/-- Model of `BasicWebSocket._on_close` (basic_websocket.py lines 200-204):
the subscription list is deliberately kept so the reconnect can
re-subscribe; only the connection is gone. -/
def basicOnClose (c : ConnState) : ConnState := { c with connected := false }

/-- Model of `BasicWebSocket._on_open` (basic_websocket.py lines 178-190):
marks the connection established and sends a subscribe message for every
registered symbol (each through `_subscribe`, which sends only while
`is_running`); the second component is the list of symbols sent upstream. -/
def basicOnOpen (c : ConnState) : ConnState × List Symbol :=
  ({ c with connected := true },
   if c.is_running then c.subscribed_symbols else [])

/-- Model of `CoinbaseWebSocket.unsubscribe` (coinbase_websocket.py lines
61-81): like the base-class version but additionally closes a live
connection. -/
def coinbaseUnsubscribe (c : ConnState) (symbol : Symbol) : ConnState :=
  let symbol := pyUpper symbol
  if symbol ∈ c.subscribed_symbols then
    let c := { c with subscribed_symbols := lrem c.subscribed_symbols symbol,
                      last_prices := ddel c.last_prices symbol }
    if c.connected && c.is_running then { c with connected := false } else c
  else c

/-- Model of `CoinbaseWebSocket._on_close` (coinbase_websocket.py lines
223-227): unsubscribes every currently registered symbol, iterating over a
snapshot of the set. -/
def coinbaseOnClose (c : ConnState) : ConnState :=
  c.subscribed_symbols.foldl coinbaseUnsubscribe c

/-- Model of `CoinbaseWebSocket._on_open` (coinbase_websocket.py lines
122-133): sends a subscribe message for every registered symbol. -/
def coinbaseOnOpen (c : ConnState) : ConnState × List Symbol :=
  ({ c with connected := true },
   if c.is_running then c.subscribed_symbols else [])

/-- Model of `BitgetWebSocket.unsubscribe` (bitget_websocket.py lines
67-87): same logic as the Coinbase variant. -/
def bitgetUnsubscribe (c : ConnState) (symbol : Symbol) : ConnState :=
  let symbol := pyUpper symbol
  if symbol ∈ c.subscribed_symbols then
    let c := { c with subscribed_symbols := lrem c.subscribed_symbols symbol,
                      last_prices := ddel c.last_prices symbol }
    if c.connected && c.is_running then { c with connected := false } else c
  else c

/-- Model of `BitgetWebSocket._on_close` (bitget_websocket.py lines
232-236): unsubscribes every currently registered symbol. -/
def bitgetOnClose (c : ConnState) : ConnState :=
  c.subscribed_symbols.foldl bitgetUnsubscribe c

/-! ### The Flask-SocketIO application (app.py) -/

/-- Destination of an outbound socket event: `emit(..., room=...)` goes to
every member of the room, `emit(...)` without a room goes to the requesting
session only. -/
inductive Target
  | room (symbol : Symbol)
  | direct (sid : Sid)
deriving DecidableEq

/-- Outbound viewer-protocol events produced by the handlers. -/
inductive OutMsg
  | price_update (symbol : Symbol) (exchange : Exchange) (price : Price) (target : Target)
  | watch_response (symbol : Symbol) (target : Target)
  | unwatch_response (symbol : Symbol) (target : Target)
deriving DecidableEq

/-- A call fanned out to every connector of `ws_pool`. -/
inductive PoolCmd
  | subscribeAll (symbol : Symbol)
  | unsubscribeAll (symbol : Symbol)
deriving DecidableEq

/-- Global mutable state of app.py: `price_cache` (line 38),
`user_watching` (line 39), `active_subscriptions` (line 40), and the
socket.io room membership driven by `join_room`/`leave_room`. -/
structure AppState where
  price_cache : List (Symbol × List (Exchange × Price))
  user_watching : List (Sid × Symbol)
  active_subscriptions : List (Symbol × Int)
  rooms : List (Sid × Symbol)
deriving DecidableEq

/-- State at server start: every registry empty. -/
def initialApp : AppState := ⟨[], [], [], []⟩

/-- Model of `join_room(f'coin_{symbol}')`: adds the session to the room
(set semantics). -/
def join_room (rooms : List (Sid × Symbol)) (sid : Sid) (symbol : Symbol) :
    List (Sid × Symbol) :=
  if (sid, symbol) ∈ rooms then rooms else (sid, symbol) :: rooms

/-- Model of `leave_room(f'coin_{symbol}')`: removes the session from the
room. -/
def leave_room (rooms : List (Sid × Symbol)) (sid : Sid) (symbol : Symbol) :
    List (Sid × Symbol) :=
  lrem rooms (sid, symbol)

/-- Whether a session is currently a member of a symbol's room. -/
def inRoom (rooms : List (Sid × Symbol)) (sid : Sid) (symbol : Symbol) : Bool :=
  decide ((sid, symbol) ∈ rooms)

/-- Whether an outbound event is delivered to a given session, given the
room membership at emission time. -/
def deliveredTo (rooms : List (Sid × Symbol)) (t : Target) (sid : Sid) : Bool :=
  match t with
  | .room symbol => inRoom rooms sid symbol
  | .direct s => decide (s = sid)

/-- Destination of an outbound event. -/
def msgTarget : OutMsg → Target
  | .price_update _ _ _ t => t
  | .watch_response _ t => t
  | .unwatch_response _ t => t

/-- Model of `update_subscriptions` (app.py lines 73-95): on increment, bump
the symbol's count (`get(symbol, 0) + 1`) and, when the count is exactly 1,
tell every pooled connector to subscribe; on decrement, only if the symbol
has an entry, set it to `max(0, count - 1)` and, when the new count is 0,
tell every pooled connector to unsubscribe.  The second component lists the
pool calls made. -/
def update_subscriptions (subs : List (Symbol × Int)) (symbol : Symbol)
    (increment : Bool) : List (Symbol × Int) × List PoolCmd :=
  if increment then
    let n : Int := (dget subs symbol).getD 0 + 1
    (dset subs symbol n, if n = 1 then [.subscribeAll symbol] else [])
  else
    match dget subs symbol with
    | none => (subs, [])
    | some v =>
        let n : Int := max 0 (v - 1)
        (dset subs symbol n, if n = 0 then [.unsubscribeAll symbol] else [])

/-- Model of `on_price_update` (app.py lines 43-61): ensure the symbol has
an inner dict, set `price_cache[symbol][exchange] = price`, then emit one
`price_update` to the symbol's room. -/
def on_price_update (st : AppState) (symbol : Symbol) (price : Price)
    (exchange : Exchange) : AppState × List OutMsg :=
  let inner := (dget st.price_cache symbol).getD []
  ({ st with price_cache := dset st.price_cache symbol (dset inner exchange price) },
   [.price_update symbol exchange price (.room symbol)])

/-- Model of `handle_watch_coin` (app.py lines 133-165): uppercase the
payload's symbol (missing field defaults to `''`); if the session was
watching a different symbol, leave its room and decrement it; then record
the watch, join the room, increment the refcount — unconditionally, even
when the session already watched this very symbol — and replay the cached
snapshot to the room before acknowledging the requester. -/
def handle_watch_coin (st : AppState) (sid : Sid) (payload : Option String) :
    AppState × List OutMsg × List PoolCmd :=
  let symbol := pyUpper (payload.getD "")
  let step1 : AppState × List PoolCmd :=
    match dget st.user_watching sid with
    | some old =>
        if old ≠ symbol then
          let u := update_subscriptions st.active_subscriptions old false
          ({ st with rooms := leave_room st.rooms sid old,
                     active_subscriptions := u.1 }, u.2)
        else (st, [])
    | none => (st, [])
  let st1 := step1.1
  let st2 := { st1 with user_watching := dset st1.user_watching sid symbol,
                        rooms := join_room st1.rooms sid symbol }
  let u2 := update_subscriptions st2.active_subscriptions symbol true
  let st3 := { st2 with active_subscriptions := u2.1 }
  let snap : List OutMsg :=
    ((dget st3.price_cache symbol).getD []).map
      (fun ep => .price_update symbol ep.1 ep.2 (.room symbol))
  (st3, snap ++ [.watch_response symbol (.direct sid)], step1.2 ++ u2.2)

/-- Model of `handle_unwatch_coin` (app.py lines 168-181): acts only when
the session currently watches exactly the named symbol; then leave the
room, decrement, drop the registry entry and acknowledge.  Otherwise
nothing at all happens (no response either). -/
def handle_unwatch_coin (st : AppState) (sid : Sid) (payload : Option String) :
    AppState × List OutMsg × List PoolCmd :=
  let symbol := pyUpper (payload.getD "")
  if dget st.user_watching sid = some symbol then
    let u := update_subscriptions st.active_subscriptions symbol false
    ({ st with rooms := leave_room st.rooms sid symbol,
               active_subscriptions := u.1,
               user_watching := ddel st.user_watching sid },
     [.unwatch_response symbol (.direct sid)], u.2)
  else (st, [], [])

/-- Model of `handle_disconnect` (app.py lines 119-130): when the session
was watching a symbol, leave its room, decrement it, and delete the
registry entry. -/
def handle_disconnect (st : AppState) (sid : Sid) : AppState × List PoolCmd :=
  match dget st.user_watching sid with
  | some symbol =>
      let u := update_subscriptions st.active_subscriptions symbol false
      ({ st with rooms := leave_room st.rooms sid symbol,
                 active_subscriptions := u.1,
                 user_watching := ddel st.user_watching sid }, u.2)
  | none => (st, [])

/-- One externally triggered event of the application. -/
inductive Op
  | watch (sid : Sid) (payload : Option String)
  | unwatch (sid : Sid) (payload : Option String)
  | leave (sid : Sid)
  | price (symbol : Symbol) (price : Price) (exchange : Exchange)

/-- State transition of one event. -/
def appStep (st : AppState) : Op → AppState
  | .watch sid d => (handle_watch_coin st sid d).1
  | .unwatch sid d => (handle_unwatch_coin st sid d).1
  | .leave sid => (handle_disconnect st sid).1
  | .price s pr e => (on_price_update st s pr e).1

/-- Running a sequence of events from a given state. -/
def runApp : AppState → List Op → AppState
  | st, [] => st
  | st, op :: ops => runApp (appStep st op) ops

/-- Invariant tying socket.io room membership to the watch registry: a
session is in a symbol's room exactly when it currently watches it. -/
def roomsConsistent (st : AppState) : Prop :=
  ∀ sid symbol, (sid, symbol) ∈ st.rooms ↔ dget st.user_watching sid = some symbol

/-- Invariant of the refcount table: every stored count is non-negative. -/
def subsNonneg (subs : List (Symbol × Int)) : Prop :=
  ∀ x v, dget subs x = some v → 0 ≤ v

/-! ### Library lemmas about the container primitives -/

section DictLemmas

variable {α : Type} {β : Type} [DecidableEq α]

theorem dget_dset_self (m : List (α × β)) (k : α) (v : β) :
    dget (dset m k v) k = some v := by
  induction m with
  | nil => simp [dget, dset]
  | cons hd tl ih =>
      obtain ⟨ka, va⟩ := hd
      by_cases h : ka = k <;> simp [dget, dset, h, ih]

theorem dget_dset_ne (m : List (α × β)) (k k' : α) (v : β) (h : k' ≠ k) :
    dget (dset m k v) k' = dget m k' := by
  have hkk : k ≠ k' := Ne.symm h
  induction m with
  | nil => simp [dget, dset, hkk]
  | cons hd tl ih =>
      obtain ⟨ka, va⟩ := hd
      by_cases hk : ka = k
      · subst hk
        simp [dget, dset, hkk]
      · simp only [dset, if_neg hk]
        by_cases hk' : ka = k' <;> simp [dget, hk', ih]

theorem dget_ddel_self (m : List (α × β)) (k : α) :
    dget (ddel m k) k = none := by
  induction m with
  | nil => simp [dget, ddel]
  | cons hd tl ih =>
      obtain ⟨ka, va⟩ := hd
      by_cases hk : ka = k <;> simp [dget, ddel, hk, ih]

theorem dget_ddel_ne (m : List (α × β)) (k k' : α) (h : k' ≠ k) :
    dget (ddel m k) k' = dget m k' := by
  induction m with
  | nil => simp [ddel]
  | cons hd tl ih =>
      obtain ⟨ka, va⟩ := hd
      by_cases hk : ka = k
      · subst hk
        simp [dget, ddel, Ne.symm h, ih]
      · by_cases hk' : ka = k' <;> simp [dget, ddel, hk, hk', h, ih]

end DictLemmas

section SetLemmas

variable {α : Type} [DecidableEq α]

theorem mem_lrem {l : List α} {a b : α} : b ∈ lrem l a ↔ b ∈ l ∧ b ≠ a := by
  induction l with
  | nil => simp [lrem]
  | cons x rest ih =>
      by_cases hx : x = a
      · subst hx
        simp only [lrem, if_pos rfl, ih, List.mem_cons]
        tauto
      · simp only [lrem, if_neg hx, List.mem_cons, ih]
        constructor
        · rintro (rfl | ⟨hb, hne⟩)
          · exact ⟨Or.inl rfl, hx⟩
          · exact ⟨Or.inr hb, hne⟩
        · rintro ⟨rfl | hb, hne⟩
          · exact Or.inl rfl
          · exact Or.inr ⟨hb, hne⟩

theorem lrem_eq_self_of_not_mem {l : List α} {a : α} (h : a ∉ l) :
    lrem l a = l := by
  induction l with
  | nil => rfl
  | cons x rest ih =>
      have hx : x ≠ a := fun hh => h (hh ▸ List.mem_cons_self x rest)
      have hr : a ∉ rest := fun hh => h (List.mem_cons_of_mem x hh)
      simp [lrem, hx, ih hr]

end SetLemmas

example : pyUpper "btc" = "BTC" := by decide
example : pyUpper "" = "" := by decide
example : pyEndsWith "BTCUSDT" "USDT" = true := by decide
example : pyEndsWith "BTC" "USDT" = false := by decide
example : pyDropRight "BTCUSDT" 4 = "BTC" := by decide
example : pyDropRight "BTC-USDT" 5 = "BTC" := by decide
example : dget [("BTC", (5 : Rat))] "BTC" = some 5 := by decide

/-! ### Connector lemmas and claims C3, C4, C5, C8 -/

theorem coinbaseUnsubscribe_subscribed (c : ConnState) (s : Symbol) :
    (coinbaseUnsubscribe c s).subscribed_symbols
      = lrem c.subscribed_symbols (pyUpper s) := by
  unfold coinbaseUnsubscribe
  by_cases h : pyUpper s ∈ c.subscribed_symbols
  · simp only [if_pos h]
    split <;> rfl
  · simp [h, lrem_eq_self_of_not_mem h]

theorem bitgetUnsubscribe_subscribed (c : ConnState) (s : Symbol) :
    (bitgetUnsubscribe c s).subscribed_symbols
      = lrem c.subscribed_symbols (pyUpper s) := by
  unfold bitgetUnsubscribe
  by_cases h : pyUpper s ∈ c.subscribed_symbols
  · simp only [if_pos h]
    split <;> rfl
  · simp [h, lrem_eq_self_of_not_mem h]

theorem foldl_unsub_mem (g : ConnState → Symbol → ConnState)
    (hg : ∀ c s, (g c s).subscribed_symbols = lrem c.subscribed_symbols (pyUpper s)) :
    ∀ (l : List Symbol) (c : ConnState) (x : Symbol),
      x ∈ (List.foldl g c l).subscribed_symbols
        ↔ x ∈ c.subscribed_symbols ∧ ∀ s ∈ l, x ≠ pyUpper s := by
  intro l
  induction l with
  | nil => intro c x; simp
  | cons a rest ih =>
      intro c x
      rw [List.foldl_cons, ih (g c a) x]
      rw [hg c a, mem_lrem]
      simp only [List.mem_cons]
      constructor
      · rintro ⟨⟨hx, hne⟩, hall⟩
        refine ⟨hx, ?_⟩
        rintro s (rfl | hs)
        · exact hne
        · exact hall s hs
      · rintro ⟨hx, hall⟩
        exact ⟨⟨hx, hall a (Or.inl rfl)⟩, fun s hs => hall s (Or.inr hs)⟩

theorem foldl_unsub_clears (g : ConnState → Symbol → ConnState)
    (hg : ∀ c s, (g c s).subscribed_symbols = lrem c.subscribed_symbols (pyUpper s))
    (c : ConnState) (hup : ∀ s ∈ c.subscribed_symbols, pyUpper s = s) :
    (List.foldl g c c.subscribed_symbols).subscribed_symbols = [] := by
  rw [List.eq_nil_iff_forall_not_mem]
  intro x hx
  rw [foldl_unsub_mem g hg] at hx
  exact hx.2 x hx.1 (hup x hx.1).symm

/-- Claim C5 (confirmed): for every connector — the claim's quantification
over connectors is the quantification over the decode hook — a message that
decodes to `(sym, pr)` fires exactly one callback precisely when `pr`
differs from the connector's last recorded price for `sym` (in particular
when none was recorded), and a second identical message immediately after
adds no further event, so two consecutive identical prices produce exactly
the events of the first. -/
theorem price_event_iff_changed {Msg : Type} (decode : Msg → Option (Symbol × Price))
    (c : ConnState) (m : Msg) (sym : Symbol) (pr : Price)
    (h : decode m = some (sym, pr)) :
    ((connStep decode c m).2 =
        if dget c.last_prices sym = some pr then [] else [⟨sym, pr⟩])
    ∧ (connRun decode c [m, m]).2 = (connStep decode c m).2 := by
  constructor
  · by_cases hc : dget c.last_prices sym = some pr <;> simp [connStep, h, hc]
  · by_cases hc : dget c.last_prices sym = some pr <;>
      simp [connRun, connStep, h, hc, dget_dset_self]

theorem price_event_iff_changed_w :
    (connStep binanceDecode ⟨[], [], true, false⟩
        (BinanceMsg.plain ⟨some "BTCUSDT", some 5⟩)).2 = [⟨"BTC", 5⟩] := by
  have h := price_event_iff_changed binanceDecode ⟨[], [], true, false⟩
      (BinanceMsg.plain ⟨some "BTCUSDT", some 5⟩) "BTC" 5 (by decide)
  simpa [dget] using h.1

/-- Claim C4 (counterexample): a combined-stream Binance payload wrapping a
trade for `ETHUSDT`, while only `BTC` is desired, still fires the callback
(the claim says it must be discarded) and records a last price for `ETH`. -/
theorem undesired_symbol_emits_cex :
    ("ETH" ∉ (⟨["BTC"], [], true, true⟩ : ConnState).subscribed_symbols)
    ∧ (connStep binanceDecode ⟨["BTC"], [], true, true⟩
        (BinanceMsg.combined "ethusdt@trade" ⟨some "ETHUSDT", some 5⟩)).2
        = [⟨"ETH", 5⟩]
    ∧ dget (connStep binanceDecode ⟨["BTC"], [], true, true⟩
        (BinanceMsg.combined "ethusdt@trade" ⟨some "ETHUSDT", some 5⟩)).1.last_prices
        "ETH" = some 5 :=
  ⟨by decide, by decide, by decide⟩

/-- Claim C4 (amended): decoding never consults the desired subscription
set — the fired events and the resulting last-price table are identical
under any desired set, so an inbound message for an undesired symbol is
processed like any other — and a message decoding to `(sym, pr)` leaves the
last price of every other symbol unchanged; an undecodable message changes
nothing and fires nothing. -/
theorem decode_ignores_desired_set {Msg : Type} (decode : Msg → Option (Symbol × Price))
    (c : ConnState) (m : Msg) (S : List Symbol) :
    ((connStep decode { c with subscribed_symbols := S } m).2
        = (connStep decode c m).2)
    ∧ ((connStep decode { c with subscribed_symbols := S } m).1.last_prices
        = (connStep decode c m).1.last_prices)
    ∧ (∀ sym pr x, decode m = some (sym, pr) → x ≠ sym →
        dget (connStep decode c m).1.last_prices x = dget c.last_prices x)
    ∧ (decode m = none → connStep decode c m = (c, [])) := by
  refine ⟨?_, ?_, ?_, ?_⟩
  · cases hdec : decode m with
    | none => simp [connStep, hdec]
    | some sp =>
        obtain ⟨sym, pr⟩ := sp
        by_cases hc : dget c.last_prices sym = some pr <;> simp [connStep, hdec, hc]
  · cases hdec : decode m with
    | none => simp [connStep, hdec]
    | some sp =>
        obtain ⟨sym, pr⟩ := sp
        by_cases hc : dget c.last_prices sym = some pr <;> simp [connStep, hdec, hc]
  · intro sym pr x hdec hx
    by_cases hc : dget c.last_prices sym = some pr <;>
      simp [connStep, hdec, hc, dget_dset_ne _ _ _ _ hx]
  · intro hdec
    simp [connStep, hdec]

theorem decode_ignores_desired_set_w :
    dget (connStep binanceDecode ⟨[], [("BTC", 1)], true, true⟩
        (BinanceMsg.plain ⟨some "ETHUSDT", some 5⟩)).1.last_prices "BTC" = some 1 := by
  have h := (decode_ignores_desired_set binanceDecode ⟨[], [("BTC", 1)], true, true⟩
      (BinanceMsg.plain ⟨some "ETHUSDT", some 5⟩) []).2.2.1 "ETH" 5 "BTC"
      (by decide) (by decide)
  rw [h]; decide

/-- Claim C3 (counterexample): the Coinbase connector empties its desired
set inside `_on_close` (it unsubscribes every symbol), so after the
reconnect completes `_on_open` re-subscribes nothing — the three desired
symbols are lost, not re-subscribed. -/
theorem coinbase_close_drops_desired_cex :
    (coinbaseOnClose ⟨["BTC", "ETH", "SOL"], [], true, true⟩).subscribed_symbols = []
    ∧ (coinbaseOnOpen (coinbaseOnClose ⟨["BTC", "ETH", "SOL"], [], true, true⟩)).2 = [] :=
  ⟨by decide, by decide⟩

theorem binanceReconnect_streams (c : ConnState) :
    (binanceReconnect c).2 = c.subscribed_symbols := by
  unfold binanceReconnect binance_get_websocket_url
  by_cases h0 : c.subscribed_symbols = []
  · simp [h0]
  · rw [if_neg h0]
    by_cases hl : c.subscribed_symbols.length = 1
    · simp [hl]
    · simp [hl]

/-- Claim C3 (amended): Binance and the `BasicWebSocket`-derived connectors
(Bybit, OKX) keep the desired set unchanged across a connection close and
automatically re-subscribe every desired symbol on reconnect with no caller
action — Bybit/OKX by replaying subscribe messages in `_on_open`, Binance
by rebuilding its connection URL from the intact desired set (its
`_on_close` only logs); the Coinbase and Bitget variants instead
unsubscribe everything in `_on_close`, emptying the desired set, so nothing
is re-subscribed after their reconnect. -/
theorem reconnect_resubscribes (c : ConnState) (hrun : c.is_running = true)
    (hup : ∀ s ∈ c.subscribed_symbols, pyUpper s = s) :
    ((basicOnClose c).subscribed_symbols = c.subscribed_symbols)
    ∧ ((basicOnOpen (basicOnClose c)).2 = c.subscribed_symbols)
    ∧ ((coinbaseOnClose c).subscribed_symbols = [])
    ∧ ((bitgetOnClose c).subscribed_symbols = [])
    ∧ ((binanceOnClose c).subscribed_symbols = c.subscribed_symbols)
    ∧ ((binanceReconnect (binanceOnClose c)).2 = c.subscribed_symbols) := by
  refine ⟨rfl, ?_, ?_, ?_, rfl, ?_⟩
  · simp [basicOnOpen, basicOnClose, hrun]
  · exact foldl_unsub_clears coinbaseUnsubscribe coinbaseUnsubscribe_subscribed c hup
  · exact foldl_unsub_clears bitgetUnsubscribe bitgetUnsubscribe_subscribed c hup
  · exact binanceReconnect_streams (binanceOnClose c)

theorem reconnect_resubscribes_w :
    (basicOnOpen (basicOnClose ⟨["BTC", "ETH", "SOL"], [], true, true⟩)).2
      = ["BTC", "ETH", "SOL"]
    ∧ (bitgetOnClose ⟨["BTC", "ETH", "SOL"], [], true, true⟩).subscribed_symbols = []
    ∧ (binanceReconnect (binanceOnClose ⟨["BTC", "ETH", "SOL"], [], true, true⟩)).2
      = ["BTC", "ETH", "SOL"] := by
  have h := reconnect_resubscribes ⟨["BTC", "ETH", "SOL"], [], true, true⟩
      (by decide) (by decide)
  exact ⟨h.2.1, h.2.2.2.1, h.2.2.2.2.2⟩

/-- Claim C8 (counterexample): an unsolicited Bybit trade for `ETH` (never
desired) records a last price; `unsubscribe("ETH")` is then a complete
no-op — the guard `if symbol in self.subscribed_symbols` fails — so the
last-seen price is not deleted, contradicting the claim's unconditional
deletion. -/
theorem unsubscribe_not_desired_noop_cex :
    dget ((connStep bybitDecode ⟨[], [], true, true⟩
        (BybitMsg.wrapped ⟨some "ETHUSDT", some 3⟩)).1).last_prices "ETH" = some 3
    ∧ ("ETH" ∉ ((connStep bybitDecode ⟨[], [], true, true⟩
        (BybitMsg.wrapped ⟨some "ETHUSDT", some 3⟩)).1).subscribed_symbols)
    ∧ basicUnsubscribe ((connStep bybitDecode ⟨[], [], true, true⟩
        (BybitMsg.wrapped ⟨some "ETHUSDT", some 3⟩)).1) "ETH"
      = (connStep bybitDecode ⟨[], [], true, true⟩
        (BybitMsg.wrapped ⟨some "ETHUSDT", some 3⟩)).1 :=
  ⟨by decide, by decide, by decide⟩

/-- Claim C8 (amended): when the uppercased symbol is in the desired set,
`unsubscribe` removes it and deletes its last-seen price whether or not an
upstream unsubscribe message could be sent (the send is try/except'd with
no local effect; totality of the model is the "never raises" guarantee),
and leaves every other symbol's last price alone — in the base class and in
the Bitget variant alike; for a symbol not in the desired set,
`unsubscribe` is a complete no-op, so a last price recorded for a
never-desired symbol is not deleted. -/
theorem unsubscribe_removes_and_clears (c : ConnState) (s : Symbol)
    (h : pyUpper s ∈ c.subscribed_symbols) :
    (pyUpper s ∉ (basicUnsubscribe c s).subscribed_symbols)
    ∧ dget (basicUnsubscribe c s).last_prices (pyUpper s) = none
    ∧ (∀ x, x ≠ pyUpper s →
        dget (basicUnsubscribe c s).last_prices x = dget c.last_prices x)
    ∧ (pyUpper s ∉ (bitgetUnsubscribe c s).subscribed_symbols)
    ∧ dget (bitgetUnsubscribe c s).last_prices (pyUpper s) = none
    ∧ (∀ c' : ConnState, pyUpper s ∉ c'.subscribed_symbols →
        basicUnsubscribe c' s = c' ∧ bitgetUnsubscribe c' s = c') := by
  refine ⟨?_, ?_, ?_, ?_, ?_, ?_⟩
  · simp [basicUnsubscribe, h, mem_lrem]
  · simp [basicUnsubscribe, h, dget_ddel_self]
  · intro x hx
    simp [basicUnsubscribe, h, dget_ddel_ne _ _ _ hx]
  · rw [bitgetUnsubscribe_subscribed, mem_lrem]
    simp
  · unfold bitgetUnsubscribe
    simp only [if_pos h]
    split <;> simp [dget_ddel_self]
  · intro c' hc'
    constructor
    · simp [basicUnsubscribe, hc']
    · simp [bitgetUnsubscribe, hc']

theorem unsubscribe_removes_and_clears_w :
    dget (basicUnsubscribe ⟨["BTC"], [("BTC", 7), ("ETH", 3)], true, true⟩ "BTC").last_prices
      "BTC" = none
    ∧ dget (basicUnsubscribe ⟨["BTC"], [("BTC", 7), ("ETH", 3)], true, true⟩ "BTC").last_prices
      "ETH" = some 3 := by
  have h := unsubscribe_removes_and_clears ⟨["BTC"], [("BTC", 7), ("ETH", 3)], true, true⟩
      "BTC" (by decide)
  refine ⟨?_, ?_⟩
  · have := h.2.1
    simpa using this
  · have := h.2.2.1 "ETH" (by decide)
    rw [this]; decide

/-! ### Handler characterization lemmas -/

theorem handle_watch_coin_none (st : AppState) (sid : Sid) (d : Option String)
    (hw : dget st.user_watching sid = none) :
    handle_watch_coin st sid d =
      ({ st with
          user_watching := dset st.user_watching sid (pyUpper (d.getD "")),
          rooms := join_room st.rooms sid (pyUpper (d.getD "")),
          active_subscriptions :=
            (update_subscriptions st.active_subscriptions (pyUpper (d.getD "")) true).1 },
       ((dget st.price_cache (pyUpper (d.getD ""))).getD []).map
           (fun ep => OutMsg.price_update (pyUpper (d.getD "")) ep.1 ep.2
             (Target.room (pyUpper (d.getD ""))))
         ++ [OutMsg.watch_response (pyUpper (d.getD "")) (Target.direct sid)],
       (update_subscriptions st.active_subscriptions (pyUpper (d.getD "")) true).2) := by
  simp only [handle_watch_coin, hw]
  rfl

theorem handle_watch_coin_same (st : AppState) (sid : Sid) (d : Option String)
    (old : Symbol) (hw : dget st.user_watching sid = some old)
    (ho : old = pyUpper (d.getD "")) :
    handle_watch_coin st sid d =
      ({ st with
          user_watching := dset st.user_watching sid (pyUpper (d.getD "")),
          rooms := join_room st.rooms sid (pyUpper (d.getD "")),
          active_subscriptions :=
            (update_subscriptions st.active_subscriptions (pyUpper (d.getD "")) true).1 },
       ((dget st.price_cache (pyUpper (d.getD ""))).getD []).map
           (fun ep => OutMsg.price_update (pyUpper (d.getD "")) ep.1 ep.2
             (Target.room (pyUpper (d.getD ""))))
         ++ [OutMsg.watch_response (pyUpper (d.getD "")) (Target.direct sid)],
       (update_subscriptions st.active_subscriptions (pyUpper (d.getD "")) true).2) := by
  simp only [handle_watch_coin, hw]
  rw [if_neg (not_not_intro ho)]
  rfl

theorem handle_watch_coin_diff (st : AppState) (sid : Sid) (d : Option String)
    (old : Symbol) (hw : dget st.user_watching sid = some old)
    (ho : old ≠ pyUpper (d.getD "")) :
    handle_watch_coin st sid d =
      ({ st with
          user_watching := dset st.user_watching sid (pyUpper (d.getD "")),
          rooms := join_room (leave_room st.rooms sid old) sid (pyUpper (d.getD "")),
          active_subscriptions :=
            (update_subscriptions
              (update_subscriptions st.active_subscriptions old false).1
              (pyUpper (d.getD "")) true).1 },
       ((dget st.price_cache (pyUpper (d.getD ""))).getD []).map
           (fun ep => OutMsg.price_update (pyUpper (d.getD "")) ep.1 ep.2
             (Target.room (pyUpper (d.getD ""))))
         ++ [OutMsg.watch_response (pyUpper (d.getD "")) (Target.direct sid)],
       (update_subscriptions st.active_subscriptions old false).2
         ++ (update_subscriptions
              (update_subscriptions st.active_subscriptions old false).1
              (pyUpper (d.getD "")) true).2) := by
  simp only [handle_watch_coin, hw]
  rw [if_pos ho]

theorem handle_unwatch_coin_eq (st : AppState) (sid : Sid) (d : Option String)
    (hw : dget st.user_watching sid = some (pyUpper (d.getD ""))) :
    handle_unwatch_coin st sid d =
      ({ st with
          rooms := leave_room st.rooms sid (pyUpper (d.getD "")),
          active_subscriptions :=
            (update_subscriptions st.active_subscriptions (pyUpper (d.getD "")) false).1,
          user_watching := ddel st.user_watching sid },
       [OutMsg.unwatch_response (pyUpper (d.getD "")) (Target.direct sid)],
       (update_subscriptions st.active_subscriptions (pyUpper (d.getD "")) false).2) := by
  simp only [handle_unwatch_coin]
  rw [if_pos hw]

theorem handle_unwatch_coin_noop (st : AppState) (sid : Sid) (d : Option String)
    (hw : dget st.user_watching sid ≠ some (pyUpper (d.getD ""))) :
    handle_unwatch_coin st sid d = (st, [], []) := by
  simp only [handle_unwatch_coin]
  rw [if_neg hw]

theorem handle_disconnect_eq (st : AppState) (sid : Sid) (symbol : Symbol)
    (hw : dget st.user_watching sid = some symbol) :
    handle_disconnect st sid =
      ({ st with
          rooms := leave_room st.rooms sid symbol,
          active_subscriptions :=
            (update_subscriptions st.active_subscriptions symbol false).1,
          user_watching := ddel st.user_watching sid },
       (update_subscriptions st.active_subscriptions symbol false).2) := by
  simp only [handle_disconnect, hw]

theorem handle_disconnect_noop (st : AppState) (sid : Sid)
    (hw : dget st.user_watching sid = none) :
    handle_disconnect st sid = (st, []) := by
  simp only [handle_disconnect, hw]

theorem watch_cache_eq (st : AppState) (sid : Sid) (d : Option String) :
    (handle_watch_coin st sid d).1.price_cache = st.price_cache := by
  cases hw : dget st.user_watching sid with
  | none => rw [handle_watch_coin_none st sid d hw]
  | some old =>
      by_cases ho : old = pyUpper (d.getD "")
      · rw [handle_watch_coin_same st sid d old hw ho]
      · rw [handle_watch_coin_diff st sid d old hw ho]

theorem watch_msgs_eq (st : AppState) (sid : Sid) (d : Option String) :
    (handle_watch_coin st sid d).2.1 =
      ((dget st.price_cache (pyUpper (d.getD ""))).getD []).map
          (fun ep => OutMsg.price_update (pyUpper (d.getD "")) ep.1 ep.2
            (Target.room (pyUpper (d.getD ""))))
        ++ [OutMsg.watch_response (pyUpper (d.getD "")) (Target.direct sid)] := by
  cases hw : dget st.user_watching sid with
  | none => rw [handle_watch_coin_none st sid d hw]
  | some old =>
      by_cases ho : old = pyUpper (d.getD "")
      · rw [handle_watch_coin_same st sid d old hw ho]
      · rw [handle_watch_coin_diff st sid d old hw ho]

/-! ### Room membership lemmas -/

theorem mem_join_room {rooms : List (Sid × Symbol)} {sid a : Sid} {symbol b : Symbol} :
    (a, b) ∈ join_room rooms sid symbol ↔ (a = sid ∧ b = symbol) ∨ (a, b) ∈ rooms := by
  unfold join_room
  by_cases h : (sid, symbol) ∈ rooms
  · rw [if_pos h]
    constructor
    · exact Or.inr
    · rintro (⟨rfl, rfl⟩ | hm)
      · exact h
      · exact hm
  · rw [if_neg h]
    rw [List.mem_cons, Prod.mk.injEq]

theorem mem_leave_room {rooms : List (Sid × Symbol)} {sid a : Sid} {symbol b : Symbol} :
    (a, b) ∈ leave_room rooms sid symbol ↔ (a, b) ∈ rooms ∧ ¬(a = sid ∧ b = symbol) := by
  unfold leave_room
  rw [mem_lrem, ne_eq, Prod.mk.injEq]

theorem watch_mem_room (st : AppState) (sid : Sid) (d : Option String) :
    (sid, pyUpper (d.getD "")) ∈ (handle_watch_coin st sid d).1.rooms := by
  cases hw : dget st.user_watching sid with
  | none =>
      rw [handle_watch_coin_none st sid d hw]
      exact mem_join_room.mpr (Or.inl ⟨rfl, rfl⟩)
  | some old =>
      by_cases ho : old = pyUpper (d.getD "")
      · rw [handle_watch_coin_same st sid d old hw ho]
        exact mem_join_room.mpr (Or.inl ⟨rfl, rfl⟩)
      · rw [handle_watch_coin_diff st sid d old hw ho]
        exact mem_join_room.mpr (Or.inl ⟨rfl, rfl⟩)

/-! ### Refcount non-negativity -/

theorem update_subscriptions_true (subs : List (Symbol × Int)) (symbol : Symbol) :
    update_subscriptions subs symbol true
      = (dset subs symbol ((dget subs symbol).getD 0 + 1),
         if (dget subs symbol).getD 0 + 1 = 1 then [PoolCmd.subscribeAll symbol]
         else []) := rfl

theorem update_subscriptions_nonneg_inc (subs : List (Symbol × Int)) (symbol : Symbol)
    (h : subsNonneg subs) : subsNonneg (update_subscriptions subs symbol true).1 := by
  intro x v hx
  simp only [update_subscriptions_true] at hx
  by_cases hxs : x = symbol
  · subst hxs
    rw [dget_dset_self] at hx
    have hbase : (0 : Int) ≤ (dget subs x).getD 0 := by
      cases hd : dget subs x with
      | none => simp
      | some w => simpa using h x w hd
    cases hx
    linarith
  · rw [dget_dset_ne _ _ _ _ hxs] at hx
    exact h x v hx

theorem update_subscriptions_nonneg_dec (subs : List (Symbol × Int)) (symbol : Symbol)
    (h : subsNonneg subs) : subsNonneg (update_subscriptions subs symbol false).1 := by
  intro x v hx
  simp only [update_subscriptions, Bool.false_eq_true, if_false] at hx
  cases hd : dget subs symbol with
  | none =>
      rw [hd] at hx
      exact h x v hx
  | some v0 =>
      rw [hd] at hx
      by_cases hxs : x = symbol
      · subst hxs
        rw [dget_dset_self] at hx
        cases hx
        exact le_max_left 0 (v0 - 1)
      · rw [dget_dset_ne _ _ _ _ hxs] at hx
        exact h x v hx

theorem appStep_subsNonneg (st : AppState) (op : Op)
    (h : subsNonneg st.active_subscriptions) :
    subsNonneg (appStep st op).active_subscriptions := by
  cases op with
  | watch sid d =>
      show subsNonneg (handle_watch_coin st sid d).1.active_subscriptions
      cases hw : dget st.user_watching sid with
      | none =>
          rw [handle_watch_coin_none st sid d hw]
          exact update_subscriptions_nonneg_inc _ _ h
      | some old =>
          by_cases ho : old = pyUpper (d.getD "")
          · rw [handle_watch_coin_same st sid d old hw ho]
            exact update_subscriptions_nonneg_inc _ _ h
          · rw [handle_watch_coin_diff st sid d old hw ho]
            exact update_subscriptions_nonneg_inc _ _
              (update_subscriptions_nonneg_dec _ _ h)
  | unwatch sid d =>
      show subsNonneg (handle_unwatch_coin st sid d).1.active_subscriptions
      by_cases hw : dget st.user_watching sid = some (pyUpper (d.getD ""))
      · rw [handle_unwatch_coin_eq st sid d hw]
        exact update_subscriptions_nonneg_dec _ _ h
      · rw [handle_unwatch_coin_noop st sid d hw]
        exact h
  | leave sid =>
      show subsNonneg (handle_disconnect st sid).1.active_subscriptions
      cases hw : dget st.user_watching sid with
      | none =>
          rw [handle_disconnect_noop st sid hw]
          exact h
      | some symbol =>
          rw [handle_disconnect_eq st sid symbol hw]
          exact update_subscriptions_nonneg_dec _ _ h
  | price s pr e => exact h

theorem runApp_subsNonneg (ops : List Op) :
    ∀ st : AppState, subsNonneg st.active_subscriptions →
      subsNonneg (runApp st ops).active_subscriptions := by
  induction ops with
  | nil => intro st h; exact h
  | cons op rest ih => intro st h; exact ih _ (appStep_subsNonneg st op h)

/-! ### Room-registry consistency -/

theorem roomsConsistent_join_dset (uw : List (Sid × Symbol)) (R : List (Sid × Symbol))
    (sid : Sid) (sym : Symbol)
    (hsid : ∀ b, (sid, b) ∈ R → b = sym)
    (hoth : ∀ a b, a ≠ sid → ((a, b) ∈ R ↔ dget uw a = some b)) :
    ∀ a b, (a, b) ∈ join_room R sid sym ↔ dget (dset uw sid sym) a = some b := by
  intro a b
  rw [mem_join_room]
  by_cases ha : a = sid
  · subst ha
    rw [dget_dset_self]
    constructor
    · rintro (⟨-, rfl⟩ | hm)
      · rfl
      · rw [hsid b hm]
    · intro hsome
      injection hsome with hb
      exact Or.inl ⟨rfl, hb.symm⟩
  · rw [dget_dset_ne _ _ _ _ ha]
    constructor
    · rintro (⟨rfl, -⟩ | hm)
      · exact absurd rfl ha
      · exact (hoth a b ha).mp hm
    · intro hm
      exact Or.inr ((hoth a b ha).mpr hm)

theorem roomsConsistent_leave_ddel (uw : List (Sid × Symbol)) (R : List (Sid × Symbol))
    (sid : Sid) (sym : Symbol)
    (hmem : ∀ a b, (a, b) ∈ R ↔ dget uw a = some b)
    (hw : dget uw sid = some sym) :
    ∀ a b, (a, b) ∈ leave_room R sid sym ↔ dget (ddel uw sid) a = some b := by
  intro a b
  rw [mem_leave_room]
  by_cases ha : a = sid
  · subst ha
    rw [dget_ddel_self]
    constructor
    · rintro ⟨hm, hne⟩
      have hb : b = sym := by
        have := (hmem a b).mp hm
        rw [hw] at this
        injection this with hb
        exact hb.symm
      exact absurd ⟨rfl, hb⟩ hne
    · intro hsome
      cases hsome
  · rw [dget_ddel_ne _ _ _ ha]
    constructor
    · rintro ⟨hm, -⟩
      exact (hmem a b).mp hm
    · intro hm
      exact ⟨(hmem a b).mpr hm, fun hh => ha hh.1⟩

theorem appStep_roomsConsistent (st : AppState) (op : Op)
    (h : roomsConsistent st) : roomsConsistent (appStep st op) := by
  cases op with
  | watch sid d =>
      show roomsConsistent (handle_watch_coin st sid d).1
      cases hw : dget st.user_watching sid with
      | none =>
          rw [handle_watch_coin_none st sid d hw]
          intro a b
          refine roomsConsistent_join_dset st.user_watching st.rooms sid _ ?_ ?_ a b
          · intro b' hb'
            have := (h sid b').mp hb'
            rw [hw] at this
            cases this
          · intro a' b' _
            exact h a' b'
      | some old =>
          by_cases ho : old = pyUpper (d.getD "")
          · rw [handle_watch_coin_same st sid d old hw ho]
            intro a b
            refine roomsConsistent_join_dset st.user_watching st.rooms sid _ ?_ ?_ a b
            · intro b' hb'
              have := (h sid b').mp hb'
              rw [hw] at this
              injection this with hb
              rw [← hb, ho]
            · intro a' b' _
              exact h a' b'
          · rw [handle_watch_coin_diff st sid d old hw ho]
            intro a b
            refine roomsConsistent_join_dset st.user_watching
              (leave_room st.rooms sid old) sid _ ?_ ?_ a b
            · intro b' hb'
              rw [mem_leave_room] at hb'
              obtain ⟨hm, hne⟩ := hb'
              have := (h sid b').mp hm
              rw [hw] at this
              injection this with hb
              exact absurd ⟨rfl, hb.symm⟩ hne
            · intro a' b' ha'
              rw [mem_leave_room]
              constructor
              · rintro ⟨hm, -⟩
                exact (h a' b').mp hm
              · intro hm
                exact ⟨(h a' b').mpr hm, fun hh => ha' hh.1⟩
  | unwatch sid d =>
      show roomsConsistent (handle_unwatch_coin st sid d).1
      by_cases hw : dget st.user_watching sid = some (pyUpper (d.getD ""))
      · rw [handle_unwatch_coin_eq st sid d hw]
        intro a b
        exact roomsConsistent_leave_ddel st.user_watching st.rooms sid _ h hw a b
      · rw [handle_unwatch_coin_noop st sid d hw]
        exact h
  | leave sid =>
      show roomsConsistent (handle_disconnect st sid).1
      cases hw : dget st.user_watching sid with
      | none =>
          rw [handle_disconnect_noop st sid hw]
          exact h
      | some symbol =>
          rw [handle_disconnect_eq st sid symbol hw]
          intro a b
          exact roomsConsistent_leave_ddel st.user_watching st.rooms sid symbol h hw a b
  | price s pr e => exact h

theorem runApp_roomsConsistent (ops : List Op) :
    ∀ st : AppState, roomsConsistent st → roomsConsistent (runApp st ops) := by
  induction ops with
  | nil => intro st h; exact h
  | cons op rest ih => intro st h; exact ih _ (appStep_roomsConsistent st op h)

theorem initialApp_roomsConsistent : roomsConsistent initialApp := by
  intro sid symbol
  simp [initialApp, dget]

/-! ### Claims C1, C2, C6, C7, C9, C10 -/

/-- Claim C1 (the code at the failing input): session A watches BTC
(refcount 1) and a Binance price is cached; a second `watch_coin` for the
very same symbol still replays the snapshot but ALSO re-increments the
refcount to 2 — `handle_watch_coin` skips the decrement only when the old
symbol differs, yet always runs `update_subscriptions(symbol,
increment=True)` — and after the session disconnects the count is stuck at
1 with nobody watching: the increment has leaked, refuting the claimed
idempotence. -/
theorem watch_rewatch_double_increment :
    (let st1 := (handle_watch_coin initialApp "A" (some "BTC")).1
     let st2 := (on_price_update st1 "BTC" 5 "Binance").1
     let r := handle_watch_coin st2 "A" (some "BTC")
     dget st1.active_subscriptions "BTC" = some 1
     ∧ r.2.1 = [.price_update "BTC" "Binance" 5 (.room "BTC"),
                .watch_response "BTC" (.direct "A")]
     ∧ dget r.1.active_subscriptions "BTC" = some 2
     ∧ (handle_disconnect r.1 "A").1.user_watching = []
     ∧ dget (handle_disconnect r.1 "A").1.active_subscriptions "BTC" = some 1) := by
  decide

/-- Claim C2 (counterexample): one viewer watches BTC (refcount 1), a
Binance price arrives, the viewer unwatches (refcount 1 → 0): the cache
still holds the BTC entry afterwards, and a later watch by a fresh session
replays that stale snapshot instead of an empty one — no code path clears
`price_cache`. -/
theorem refcount_zero_keeps_cache_cex :
    (let st1 := (handle_watch_coin initialApp "s1" (some "BTC")).1
     let st2 := (on_price_update st1 "BTC" 5 "Binance").1
     let st3 := (handle_unwatch_coin st2 "s1" (some "BTC")).1
     dget st3.active_subscriptions "BTC" = some 0
     ∧ dget st3.price_cache "BTC" = some [("Binance", 5)]
     ∧ (handle_watch_coin st3 "s2" (some "BTC")).2.1 =
         [.price_update "BTC" "Binance" 5 (.room "BTC"),
          .watch_response "BTC" (.direct "s2")]) := by
  decide

/-- Claim C2 (amended): when a symbol's refcount returns to 0 the price
cache is left untouched — `handle_unwatch_coin`, `handle_disconnect` (and
`handle_watch_coin` itself) never modify `price_cache` — so a subsequent
watch before any new price event replays the retained (stale) snapshot
straight from the old cache entries rather than an empty one. -/
theorem refcount_zero_keeps_cache (st : AppState) (sid : Sid) (d : Option String) :
    ((handle_unwatch_coin st sid d).1.price_cache = st.price_cache)
    ∧ ((handle_disconnect st sid).1.price_cache = st.price_cache)
    ∧ ((handle_watch_coin st sid d).1.price_cache = st.price_cache)
    ∧ ((handle_watch_coin st sid d).2.1 =
        ((dget st.price_cache (pyUpper (d.getD ""))).getD []).map
            (fun ep => OutMsg.price_update (pyUpper (d.getD "")) ep.1 ep.2
              (Target.room (pyUpper (d.getD ""))))
          ++ [OutMsg.watch_response (pyUpper (d.getD "")) (Target.direct sid)]) := by
  refine ⟨?_, ?_, watch_cache_eq st sid d, watch_msgs_eq st sid d⟩
  · by_cases hw : dget st.user_watching sid = some (pyUpper (d.getD ""))
    · rw [handle_unwatch_coin_eq st sid d hw]
    · rw [handle_unwatch_coin_noop st sid d hw]
  · cases hw : dget st.user_watching sid with
    | none => rw [handle_disconnect_noop st sid hw]
    | some symbol => rw [handle_disconnect_eq st sid symbol hw]

/-- Claim C6 (counterexample): session A watches BTC and a price is cached;
when session B then watches BTC, the snapshot replay is emitted with
`room='coin_BTC'`, so A — already a member of that room and not the
requester — receives the snapshot event too: snapshot replay is not
delivered only to the requesting viewer. -/
theorem snapshot_broadcast_cex :
    (let st1 := (handle_watch_coin initialApp "A" (some "BTC")).1
     let st2 := (on_price_update st1 "BTC" 5 "Binance").1
     let r := handle_watch_coin st2 "B" (some "BTC")
     r.2.1.filter (fun msg => deliveredTo r.1.rooms (msgTarget msg) "A")
       = [.price_update "BTC" "Binance" 5 (.room "BTC")]) := by
  decide

/-- Claim C6 (amended): on `watch` the handler emits one snapshot
`price_update` per exchange cached for the symbol followed by the success
acknowledgement, but it targets the snapshot at the symbol's room, so every
current member of the room receives it — not only the requester (who has
just joined the room and therefore receives it as well); every price event
is published exactly once, to the symbol's room only; and from server start
a session is in a symbol's room exactly when it currently watches that
symbol, so a viewer receives zero price events for symbols it is not
watching. -/
theorem watch_snapshot_and_fanout :
    (∀ (st : AppState) (sid : Sid) (d : Option String),
      (handle_watch_coin st sid d).2.1 =
        ((dget st.price_cache (pyUpper (d.getD ""))).getD []).map
            (fun ep => OutMsg.price_update (pyUpper (d.getD "")) ep.1 ep.2
              (Target.room (pyUpper (d.getD ""))))
          ++ [OutMsg.watch_response (pyUpper (d.getD "")) (Target.direct sid)])
    ∧ (∀ (st : AppState) (sid : Sid) (d : Option String),
        inRoom (handle_watch_coin st sid d).1.rooms sid (pyUpper (d.getD "")) = true)
    ∧ (∀ (st : AppState) (symbol : Symbol) (pr : Price) (e : Exchange),
        (on_price_update st symbol pr e).2
          = [OutMsg.price_update symbol e pr (Target.room symbol)])
    ∧ (∀ (ops : List Op) (sid : Sid) (symbol : Symbol),
        inRoom (runApp initialApp ops).rooms sid symbol = true
          ↔ dget (runApp initialApp ops).user_watching sid = some symbol) := by
  refine ⟨watch_msgs_eq, ?_, fun _ _ _ _ => rfl, ?_⟩
  · intro st sid d
    exact decide_eq_true (watch_mem_room st sid d)
  · intro ops sid symbol
    rw [inRoom, decide_eq_true_eq]
    exact runApp_roomsConsistent ops initialApp initialApp_roomsConsistent sid symbol

/-- Claim C7 (confirmed): from server start every stored refcount is
non-negative; an increment stores `get(symbol, 0) + 1`; a decrement on a
present entry stores `max(0, count - 1)` — a decrement that would go
negative clamps to zero — and a decrement for an absent symbol is a total
no-op with no pool calls; no code path errors (the model's totality is the
"never propagate" guarantee). -/
theorem refcount_nonneg_and_clamped :
    (∀ (ops : List Op) (x : Symbol) (v : Int),
        dget (runApp initialApp ops).active_subscriptions x = some v → 0 ≤ v)
    ∧ (∀ (subs : List (Symbol × Int)) (symbol : Symbol),
        dget (update_subscriptions subs symbol true).1 symbol
          = some ((dget subs symbol).getD 0 + 1))
    ∧ (∀ (subs : List (Symbol × Int)) (symbol : Symbol) (v : Int),
        dget subs symbol = some v →
          dget (update_subscriptions subs symbol false).1 symbol
            = some (max 0 (v - 1)))
    ∧ (∀ (subs : List (Symbol × Int)) (symbol : Symbol),
        dget subs symbol = none →
          update_subscriptions subs symbol false = (subs, [])) := by
  refine ⟨?_, ?_, ?_, ?_⟩
  · intro ops x v hx
    exact runApp_subsNonneg ops initialApp (fun _ _ hv => by cases hv) x v hx
  · intro subs symbol
    simp only [update_subscriptions_true]
    rw [dget_dset_self]
  · intro subs symbol v hv
    simp only [update_subscriptions, Bool.false_eq_true, if_false, hv]
    rw [dget_dset_self]
  · intro subs symbol hv
    simp only [update_subscriptions, Bool.false_eq_true, if_false, hv]

theorem refcount_nonneg_and_clamped_w :
    ((0 : Int) ≤ 1)
    ∧ dget (update_subscriptions [("BTC", 0)] "BTC" false).1 "BTC" = some 0 := by
  constructor
  · exact refcount_nonneg_and_clamped.1 [Op.watch "A" (some "BTC")] "BTC" 1 (by decide)
  · have h := refcount_nonneg_and_clamped.2.2.1 [("BTC", 0)] "BTC" 0 (by decide)
    rw [h]; decide

/-- Claim C9 (counterexample): a `watch_coin` whose payload lacks the symbol
field is not rejected: `data.get('symbol', '')` yields `''` and the handler
registers the session as watching `""`, increments the refcount of `""` and
even tells every pooled connector to subscribe to it — shared state is
modified, refuting the claimed no-op/error-ack handling. -/
theorem malformed_watch_mutates_state_cex :
    (let r := handle_watch_coin initialApp "A" none
     dget r.1.active_subscriptions "" = some 1
     ∧ dget r.1.user_watching "A" = some ""
     ∧ r.2.2 = [.subscribeAll ""]
     ∧ r.1 ≠ initialApp) := by
  decide

/-- Claim C9 (amended): an unwatch for a symbol the session is not
currently watching is a silent no-op — state unchanged, no response, no
pool calls; a watch with a missing symbol field, however, is not rejected:
it is processed exactly like a watch for the empty-string symbol (registry
update, room join, refcount increment, success acknowledgement). -/
theorem viewer_misuse_behavior :
    (∀ (st : AppState) (sid : Sid) (d : Option String),
        dget st.user_watching sid ≠ some (pyUpper (d.getD "")) →
          handle_unwatch_coin st sid d = (st, [], []))
    ∧ (∀ (st : AppState) (sid : Sid),
        handle_watch_coin st sid none = handle_watch_coin st sid (some "")) := by
  constructor
  · exact handle_unwatch_coin_noop
  · intro st sid
    rfl

theorem viewer_misuse_behavior_w :
    handle_unwatch_coin initialApp "A" (some "BTC") = (initialApp, [], []) :=
  viewer_misuse_behavior.1 initialApp "A" (some "BTC") (by decide)

/-- Claim C10 (confirmed): `on_price_update` writes exactly
`price_cache[symbol][exchange] := price` — the entry it then publishes —
and leaves every other exchange entry of that symbol, every other symbol's
entries, the watch registry, the refcount table and the room membership
unchanged; it emits exactly the one room-scoped `price_update` carrying the
new price. -/
theorem on_price_update_frame (st : AppState) (symbol : Symbol) (pr : Price)
    (e : Exchange) :
    (dget ((dget (on_price_update st symbol pr e).1.price_cache symbol).getD []) e
        = some pr)
    ∧ (∀ e', e' ≠ e →
        dget ((dget (on_price_update st symbol pr e).1.price_cache symbol).getD []) e'
          = dget ((dget st.price_cache symbol).getD []) e')
    ∧ (∀ s', s' ≠ symbol →
        dget (on_price_update st symbol pr e).1.price_cache s'
          = dget st.price_cache s')
    ∧ ((on_price_update st symbol pr e).1.user_watching = st.user_watching)
    ∧ ((on_price_update st symbol pr e).1.active_subscriptions = st.active_subscriptions)
    ∧ ((on_price_update st symbol pr e).1.rooms = st.rooms)
    ∧ ((on_price_update st symbol pr e).2
        = [OutMsg.price_update symbol e pr (Target.room symbol)]) := by
  refine ⟨?_, ?_, ?_, rfl, rfl, rfl, rfl⟩
  · show dget ((dget (dset st.price_cache symbol
        (dset ((dget st.price_cache symbol).getD []) e pr)) symbol).getD []) e = some pr
    rw [dget_dset_self]
    exact dget_dset_self _ _ _
  · intro e' he'
    show dget ((dget (dset st.price_cache symbol
        (dset ((dget st.price_cache symbol).getD []) e pr)) symbol).getD []) e'
      = dget ((dget st.price_cache symbol).getD []) e'
    rw [dget_dset_self]
    exact dget_dset_ne _ _ _ _ he'
  · intro s' hs'
    show dget (dset st.price_cache symbol
        (dset ((dget st.price_cache symbol).getD []) e pr)) s'
      = dget st.price_cache s'
    exact dget_dset_ne _ _ _ _ hs'

theorem on_price_update_frame_w :
    dget ((dget (on_price_update ⟨[("BTC", [("Bybit", 3)])], [], [], []⟩
        "BTC" 5 "Binance").1.price_cache "BTC").getD []) "Bybit" = some 3
    ∧ dget (on_price_update ⟨[("BTC", [("Bybit", 3)])], [], [], []⟩
        "BTC" 5 "Binance").1.price_cache "ETH" = none := by
  constructor
  · have h := (on_price_update_frame ⟨[("BTC", [("Bybit", 3)])], [], [], []⟩
        "BTC" 5 "Binance").2.1 "Bybit" (by decide)
    rw [h]; decide
  · have h := (on_price_update_frame ⟨[("BTC", [("Bybit", 3)])], [], [], []⟩
        "BTC" 5 "Binance").2.2.1 "ETH" (by decide)
    rw [h]; decide

end LiveCryptoBoard
